import Mathlib

/-!
Verification of the vSphere backend of the libretto VM-lifecycle library
(`virtualmachine/vsphere/util.go`), as a shallow embedding in Lean.

Strings from the Go code are modelled as Lean `String`s, except for the
path-splitting functions where the character-level structure matters and
strings are modelled as `List Char`.  External collaborators (the govmomi
property collector, `regexp.MatchString`, `time.ParseDuration`, the OS
environment, task submission) are modelled as explicit inputs/parameters:
for each operation the data that the Go code would fetch from vSphere is
passed in directly, and the claims quantify over all such inputs.
-/

namespace VSphere

/-! ## Disk reconciliation (`resizeAndDeleteVols`, util.go:802-847) -/

/-- A virtual device of a VM template: either a virtual disk carrying its
backing file name (`Backing.FileName`) and its `CapacityInKB`, or some
other (non-disk) device, which `resizeAndDeleteVols` ignores.  Capacities
are Go `int64`; sizes here never approach `2 ^ 63`, so they are modelled
as unbounded `Int`. -/
inductive VDevice where
  | disk (fileName : String) (capacityInKB : Int)
  | other
deriving DecidableEq, Repr

/-- The fields of the Go `Disk` struct that `resizeAndDeleteVols` reads:
the requested size (in GB) and the backing file name (`DiskFile`). -/
structure Disk where
  Size : Int
  DiskFile : String
deriving DecidableEq, Repr

/-- Models `findByVirtualDeviceFileName(disks []Disk, name string) *Disk`
(util.go:802): returns the first disk whose `DiskFile` equals `name`,
or `none` (Go `nil`). -/
def findByVirtualDeviceFileName : List Disk → String → Option Disk
  | [], _ => none
  | d :: ds, name => if d.DiskFile = name then some d else findByVirtualDeviceFileName ds name

/-- A `types.VirtualDeviceConfigSpec` produced by `resizeAndDeleteVols`:
either a remove spec or an edit spec, carrying the device (for the edit
spec, with its capacity already mutated as in the Go code). -/
inductive DeviceConfigSpec where
  | remove (device : VDevice)
  | edit (device : VDevice)
deriving DecidableEq, Repr

/-- Models `resizeAndDeleteVols(vmMo mo.VirtualMachine, disks []Disk)`
(util.go:812-847).  The input device list is `vmMo.Config.Hardware.Device`.
Entries of the returned `deviceSpecs` slice are `Option DeviceConfigSpec`:
the Go variable `dvconfig` is a nil interface value when the requested and
current sizes are equal, and the `append` at util.go:842 runs
unconditionally for every virtual-disk device, so a `none` (Go `nil`)
entry is appended in that case. -/
def resizeAndDeleteVols : List VDevice → List Disk → Except String (List (Option DeviceConfigSpec))
  | [], _ => .ok []
  | .other :: devs, disks => resizeAndDeleteVols devs disks
  | .disk fileName capacity :: devs, disks =>
    let entry : Except String (Option DeviceConfigSpec) :=
      match findByVirtualDeviceFileName disks fileName with
      | none =>
        -- If user wants to delete the disk
        .ok (some (.remove (.disk fileName capacity)))
      | some disk =>
        let capacityInKB : Int := disk.Size * 1024 * 1024
        if capacity > capacityInKB then
          -- If user wants to shrink the disk capacity
          .error ("error : Shrinking Virtual Disks is not supported")
        else if capacity < capacityInKB then
          -- If user wants to expand the virtual disk capacity
          .ok (some (.edit (.disk fileName capacityInKB)))
        else
          .ok none
    match entry with
    | .error e => .error e
    | .ok sp =>
      match resizeAndDeleteVols devs disks with
      | .error e => .error e
      | .ok specs => .ok (sp :: specs)

/-! ## Host validation and filtering (`validateHost`, `filterHosts`) -/

/-- The data `validateHost` (util.go:1680-1722) retrieves about a host
system: the names of its networks (via `getNetworkName`) and the names of
its datastores. -/
structure HostInfo where
  networks : List String
  datastores : List String
deriving DecidableEq, Repr

/-- Models `validateHost(vm *VM, hsMor)` (util.go:1680-1722) on the
successfully retrieved host data.  `reqNetworks` is the list of names in
`vm.Networks`; `datastore` is `vm.datastore` (empty string when no
datastore has been pre-selected).  `nwValid` is true iff every requested
network name is among the host's network names; when `vm.datastore` is
empty the function returns `nwValid` directly (the datastore check is
skipped), otherwise it returns `nwValid && dsValid`. -/
def validateHost (reqNetworks : List String) (datastore : String) (host : HostInfo) : Bool :=
  let nwValid := reqNetworks.all (fun v => host.networks.contains v)
  if datastore = "" then nwValid
  else nwValid && host.datastores.contains datastore

/-- Models `filterHosts(vm *VM, hosts)` (util.go:1432-1444): keeps exactly
the hosts that `validateHost` accepts, in order. -/
def filterHosts (reqNetworks : List String) (datastore : String) (hosts : List HostInfo) : List HostInfo :=
  hosts.filter (fun host => validateHost reqNetworks datastore host)

/-! ## Question answering (`answerQuestion`, `resolveAnswerAndOptions`) -/

/-- A `types.ElementDescription` from a question's `Choice.ChoiceInfo`:
the choice key and its description summary. -/
structure ElementDescription where
  Key : String
  Summary : String
deriving DecidableEq, Repr

/-- Models Go `strings.EqualFold` restricted to ASCII case folding (the
strings compared by this code are plain ASCII answers such as "Retry"):
the two strings are equal after lower-casing each character. -/
def eqFold (s t : String) : Bool := s.data.map Char.toLower == t.data.map Char.toLower

/-- The loop body of `resolveAnswerAndOptions` (util.go:1775-1785): walks
`choiceInfo` carrying the pair (resolvedAnswer, validOptions); whenever a
choice summary case-insensitively equals the answer, `resolvedAnswer` is
overwritten with that choice's key. -/
def resolveLoop (answer : String) : List ElementDescription → String × String → String × String
  | [], acc => acc
  | e :: es, (resolvedAnswer, validOptions) =>
    let validOptions := validOptions ++ "(" ++ e.Key ++ ") " ++ e.Summary ++ " "
    let resolvedAnswer := if eqFold e.Summary answer then e.Key else resolvedAnswer
    resolveLoop answer es (resolvedAnswer, validOptions)

/-- Models `resolveAnswerAndOptions(choiceInfo, answer)`
(util.go:1775-1785): `resolvedAnswer` starts as the given answer and
`validOptions` as the empty string; the result's second component is
`strings.TrimSpace` of the accumulated options. -/
def resolveAnswerAndOptions (choiceInfo : List ElementDescription) (answer : String) : String × String :=
  let p := resolveLoop answer choiceInfo (answer, "")
  (p.1, p.2.trim)

/-- One entry of the `vm.QuestionResponses` map: a regular expression
(the map key) and the configured answer (the map value). -/
structure QRule where
  regex : String
  answer : String
deriving DecidableEq, Repr

/-- The pending question state read by `answerQuestion`
(`vmMo.Runtime.Question`): the question text, its id, and its choices. -/
structure Question where
  text : String
  id : String
  choices : List ElementDescription
deriving DecidableEq, Repr

/-- Models the loop of `answerQuestion` (util.go:1749-1768) on the success
path: `reMatch` models `regexp.MatchString` (assumed to compile, an
external collaborator), `iter` is the sequence of map entries in the order
Go's `range` happens to deliver them (Go map iteration order is
unspecified, so theorems quantify over all permutations of the configured
table), and the result is the list of answers submitted via
`answerVSphereQuestion`, each resolved by `resolveAnswerAndOptions`
against the question's choices.  Submission is modelled as succeeding
(a failed submission aborts the Go loop with an error). -/
def answerQuestionSubmitted (reMatch : String → String → Bool) (q : Question) :
    List QRule → List String
  | [] => []
  | r :: rs =>
    if reMatch r.regex q.text then
      (resolveAnswerAndOptions q.choices r.answer).1 :: answerQuestionSubmitted reMatch q rs
    else
      answerQuestionSubmitted reMatch q rs

/-! ## Heartbeat wait (`waitForGuestStatus`, util.go:1292-1337) -/

/-- `types.ManagedEntityStatus` values relevant to the heartbeat. -/
inductive ManagedEntityStatus where
  | gray | green | red | yellow
deriving DecidableEq, Repr

/-- The heartbeat property name constant (util.go:55). -/
def GUEST_HEART_BEAT_STATUS : String := "guestHeartbeatStatus"

/-- Heartbeat mask bits (util.go:54-60).  In the Go const block `iota` is
already 1 on the `GREEN_HEART_BEAT` line (the name constant occupies the
first line), so green is `1 << 1 = 2`. -/
def GREEN_HEART_BEAT : Nat := 2

/-- Yellow heartbeat mask bit, `1 << 2`. -/
def YELLOW_HEART_BEAT : Nat := 4

/-- Gray heartbeat mask bit, `1 << 3`. -/
def GRAY_HEART_BEAT : Nat := 8

/-- Red heartbeat mask bit, `1 << 4`. -/
def RED_HEART_BEAT : Nat := 16

/-- A `types.PropertyChange` as inspected by the wait callback: the
property name and its value (`none` models a nil `c.Val`). -/
structure PropertyChange where
  Name : String
  Val : Option ManagedEntityStatus
deriving DecidableEq, Repr

/-- Models the predicate callback passed to `property.Wait` by
`waitForGuestStatus` (util.go:1306-1335): scans the property changes; a
change whose name is not the heartbeat property or whose value is nil is
skipped; otherwise the change's status is accepted iff the corresponding
bit is set in the `status` mask. -/
def guestStatusPred (status : Nat) : List PropertyChange → Bool
  | [] => false
  | c :: rest =>
    if c.Name ≠ GUEST_HEART_BEAT_STATUS then guestStatusPred status rest
    else
      match c.Val with
      | none => guestStatusPred status rest
      | some ps =>
        if status &&& GREEN_HEART_BEAT ≠ 0 ∧ ps = .green then true
        else if status &&& GRAY_HEART_BEAT ≠ 0 ∧ ps = .gray then true
        else if status &&& YELLOW_HEART_BEAT ≠ 0 ∧ ps = .yellow then true
        else if status &&& RED_HEART_BEAT ≠ 0 ∧ ps = .red then true
        else guestStatusPred status rest

/-- The mask bit corresponding to a status value, used to state the
theorems about `guestStatusPred`. -/
def heartbeatBit : ManagedEntityStatus → Nat
  | .green => GREEN_HEART_BEAT
  | .yellow => YELLOW_HEART_BEAT
  | .gray => GRAY_HEART_BEAT
  | .red => RED_HEART_BEAT

/-- Models the external `property.Wait` collaborator: it delivers the
successive batches of property changes to the predicate and returns at
the first batch the predicate accepts (`some i` = accepted at batch `i`,
`none` = the update stream ended, e.g. by timeout). -/
def propertyWaitModel (pred : List PropertyChange → Bool) : List (List PropertyChange) → Option Nat
  | [] => none
  | u :: us =>
    if pred u then some 0
    else (propertyWaitModel pred us).map (fun n => n + 1)

/-! ## Task progress (`isTaskInProgress`, util.go:2196-2214) -/

/-- `types.TaskInfoState`: the four documented task states. -/
inductive TaskInfoState where
  | queued | running | success | error
deriving DecidableEq, Repr

/-- Models `isTaskInProgress(vm, vmMo)` (util.go:2196-2214).  The input is
`vmMo.RecentTask` with, for each task, the retrieved `Info.State`; `none`
models a failed `RetrieveOne` (the Go loop `continue`s on it).  A queued
or running task returns `false`; otherwise the loop falls through and the
function returns `true` (so `true` means "no task in progress"). -/
def isTaskInProgress : List (Option TaskInfoState) → Bool
  | [] => true
  | t :: ts =>
    match t with
    | some .queued => false
    | some .running => false
    | _ => isTaskInProgress ts

/-! ## Power-on (`start`, util.go:1362-1389) -/

/-- The externally observable steps `start` can take after reading the
guest state: submitting the power-on task (`vmo.PowerOn`), waiting for its
result (`poweronTask.WaitForResult`), and waiting for an IP
(`waitForIP`). -/
inductive StartStep where
  | submitPowerOn | waitPowerOnResult | waitIP
deriving DecidableEq, Repr

/-- The possible error outcomes of `start`.  `powerStateChanging` is the
transient `ErrorVMPowerStateChanging` value. -/
inductive StartErr where
  | powerStateChanging
  | powerOnFailed (e : String)
  | waitFailed (e : String)
  | taskFault (e : String)
  | ipFailed (e : String)
deriving DecidableEq, Repr

/-- The external outcomes `start` depends on after the VM lookup: the
guest state string (`vmMo.Guest.GuestState`), whether each backend call
fails (`none` = success), and the `SkipIPWait` flag. -/
structure StartEnv where
  guestState : String
  powerOnErr : Option String
  waitErr : Option String
  taskFault : Option String
  skipIPWait : Bool
  ipErr : Option String
deriving DecidableEq, Repr

/-- Models `start(vm)` (util.go:1362-1389) after a successful VM lookup:
returns the trace of steps taken and the error outcome (`none` =
success).  If the guest state is "shuttingdown" or "resetting" the
function returns `ErrorVMPowerStateChanging` before submitting anything;
otherwise it submits the power-on task, waits for its result (when
submission succeeded), checks the embedded task fault, and finally waits
for an IP unless `SkipIPWait` is set. -/
def start (env : StartEnv) : List StartStep × Option StartErr :=
  if env.guestState = "shuttingdown" ∨ env.guestState = "resetting" then
    ([], some .powerStateChanging)
  else
    match env.powerOnErr with
    | some e => ([.submitPowerOn], some (.powerOnFailed e))
    | none =>
      match env.waitErr with
      | some e => ([.submitPowerOn, .waitPowerOnResult], some (.waitFailed e))
      | none =>
        match env.taskFault with
        | some e => ([.submitPowerOn, .waitPowerOnResult], some (.taskFault e))
        | none =>
          if env.skipIPWait then
            ([.submitPowerOn, .waitPowerOnResult], none)
          else
            match env.ipErr with
            | some e => ([.submitPowerOn, .waitPowerOnResult, .waitIP], some (.ipFailed e))
            | none => ([.submitPowerOn, .waitPowerOnResult, .waitIP], none)

/-! ## IP-wait timeout (`waitForIP`, util.go:1199-1210) -/

/-- `IPWAIT_TIMEOUT = 1 * time.Hour` (util.go:40), in nanoseconds
(`time.Duration` counts nanoseconds). -/
def IPWAIT_TIMEOUT : Int := 3600 * 1000000000

/-- Models the timeout computation of `waitForIP` (util.go:1202-1209):
`getenv` models `os.Getenv` (returns the empty string for an absent
variable) and `parseDuration` models `time.ParseDuration` (`none` = parse
error).  The timeout starts at the one-hour default and is replaced by
the parsed duration only when the variable is non-empty and parses. -/
def waitForIPTimeout (parseDuration : String → Option Int) (getenv : String → String) : Int :=
  let timeout := IPWAIT_TIMEOUT
  let value := getenv ("IPWAIT_TIMEOUT")
  if value ≠ "" then
    match parseDuration value with
    | some duration => duration
    | none => timeout
  else timeout

/-! ## Path splitting (`splitPathToList`, util.go:506-529)

Path strings are modelled as `List Char` so that the character-level
splitting is exact. -/

/-- Models `strings.Split(s, string(c))` for a one-character separator:
splits at every occurrence of `c`; the result always has at least one
segment and the segments contain no `c`. -/
def splitChar (c : Char) : List Char → List (List Char)
  | [] => [[]]
  | x :: xs =>
    if x = c then [] :: splitChar c xs
    else
      match splitChar c xs with
      | [] => [[x]]
      | s :: ss => (x :: s) :: ss

/-- Models `strings.SplitN(s, "\\/", 2)`: `some (pre, rest)` when the
two-character escape sequence `\/` occurs in `s`, splitting at its first
occurrence; `none` when it does not occur (in Go, a one-element slice). -/
def splitEsc : List Char → Option (List Char × List Char)
  | [] => none
  | [_] => none
  | x :: y :: xs =>
    if x = '\\' ∧ y = '/' then some ([], xs)
    else
      match splitEsc (y :: xs) with
      | none => none
      | some (pre, rest) => some (x :: pre, rest)

/-- Models `splitPathToList(path string) []string` (util.go:506-529):
splits the path at the first escaped separator `\/` (if any), splits the
part before it at `/`, recursively splits the part after it, and rejoins
across the escape by appending `"/" + morePathList[0]` to the last
segment of the first part.  The Go code indexes `pathList[lPathList-1]`
and `morePathList[0]`, which are always in bounds because both lists are
provably non-empty; `List.getLastD`/`List.headD` with a default realize
that indexing totally. -/
def splitPathToList (path : List Char) : List (List Char) :=
  match h : splitEsc path with
  | none => splitChar '/' path
  | some (pre, rest) =>
    let pathList := splitChar '/' pre
    let more := splitPathToList rest
    pathList.dropLast ++ (pathList.getLastD [] ++ '/' :: more.headD []) :: more.tail
termination_by path.length
decreasing_by
  have key : ∀ (s p r : List Char), splitEsc s = some (p, r) → r.length < s.length := by
    intro s
    induction s with
    | nil => intro p r hh; simp [splitEsc] at hh
    | cons x xs ih =>
      intro p r hh
      cases xs with
      | nil => simp [splitEsc] at hh
      | cons y ys =>
        rw [splitEsc] at hh
        by_cases hxy : x = '\\' ∧ y = '/'
        · rw [if_pos hxy] at hh
          simp only [Option.some.injEq, Prod.mk.injEq] at hh
          obtain ⟨h1, h2⟩ := hh
          subst h2
          simp [List.length_cons]
          omega
        · rw [if_neg hxy] at hh
          cases heq : splitEsc (y :: ys) with
          | none => rw [heq] at hh; cases hh
          | some pr =>
            obtain ⟨p2, r2⟩ := pr
            rw [heq] at hh
            simp only [Option.some.injEq, Prod.mk.injEq] at hh
            obtain ⟨h1, h2⟩ := hh
            subst h2
            have := ih p2 r2 heq
            simp [List.length_cons] at this ⊢
            omega
  exact key path pre rest h

/-- Models `strings.Replace(seg, "/", "\\/", -1)`: the rejoining step of
the round-trip property replaces every separator internal to a combined
segment back with its escaped form. -/
def replSlash : List Char → List Char
  | [] => []
  | x :: xs => if x = '/' then '\\' :: '/' :: replSlash xs else x :: replSlash xs

/-- Models `strings.Join(segs, "/")`: rejoins segments with the path
separator. -/
def joinSep (c : Char) : List (List Char) → List Char
  | [] => []
  | [x] => x
  | x :: y :: ys => x ++ c :: joinSep c (y :: ys)

theorem splitEsc_some : ∀ {s pre rest : List Char}, splitEsc s = some (pre, rest) →
    s = pre ++ '\\' :: '/' :: rest := by
  intro s
  induction s with
  | nil => intro pre rest h; simp [splitEsc] at h
  | cons x xs ih =>
    intro pre rest h
    cases xs with
    | nil => simp [splitEsc] at h
    | cons y ys =>
      rw [splitEsc] at h
      by_cases hxy : x = '\\' ∧ y = '/'
      · rw [if_pos hxy] at h
        obtain ⟨h1, h2⟩ := Prod.mk.injEq .. ▸ Option.some.injEq .. ▸ h
        subst h1; subst h2
        simp [hxy.1, hxy.2]
      · rw [if_neg hxy] at h
        cases heq : splitEsc (y :: ys) with
        | none => rw [heq] at h; simp at h
        | some pr =>
          rw [heq] at h
          obtain ⟨pre', rest'⟩ := pr
          simp only [Option.some.injEq, Prod.mk.injEq] at h
          obtain ⟨h1, h2⟩ := h
          subst h2
          have := ih heq
          rw [← h1, this]
          simp

theorem splitEsc_rest_length {s pre rest : List Char} (h : splitEsc s = some (pre, rest)) :
    rest.length < s.length := by
  have hs := splitEsc_some h
  subst hs
  simp [List.length_append]
  omega

theorem splitChar_ne_nil (c : Char) (s : List Char) : splitChar c s ≠ [] := by
  cases s with
  | nil => simp [splitChar]
  | cons x xs =>
    rw [splitChar]
    by_cases hx : x = c
    · simp [hx]
    · rw [if_neg hx]
      cases splitChar c xs <;> simp

theorem joinSep_cons_of_ne (c : Char) (x : List Char) {L : List (List Char)} (hL : L ≠ []) :
    joinSep c (x :: L) = x ++ c :: joinSep c L := by
  cases L with
  | nil => exact absurd rfl hL
  | cons y ys => rw [joinSep]

theorem joinSep_splitChar (c : Char) (s : List Char) : joinSep c (splitChar c s) = s := by
  induction s with
  | nil => simp [splitChar, joinSep]
  | cons x xs ih =>
    rw [splitChar]
    by_cases hx : x = c
    · rw [if_pos hx, joinSep_cons_of_ne c [] (splitChar_ne_nil c xs), ih, hx]
      simp
    · rw [if_neg hx]
      cases heq : splitChar c xs with
      | nil => exact absurd heq (splitChar_ne_nil c xs)
      | cons s' ss =>
        rw [heq] at ih
        cases ss with
        | nil =>
          rw [joinSep] at ih ⊢
          rw [ih]
        | cons t ts =>
          rw [joinSep] at ih ⊢
          rw [List.cons_append, ih]

theorem not_mem_splitChar (c : Char) (s : List Char) :
    ∀ seg ∈ splitChar c s, c ∉ seg := by
  induction s with
  | nil => simp [splitChar]
  | cons x xs ih =>
    rw [splitChar]
    by_cases hx : x = c
    · rw [if_pos hx]
      intro seg hseg
      rcases List.mem_cons.mp hseg with h | h
      · subst h; simp
      · exact ih seg h
    · rw [if_neg hx]
      cases heq : splitChar c xs with
      | nil => exact absurd heq (splitChar_ne_nil c xs)
      | cons s' ss =>
        rw [heq] at ih
        intro seg hseg
        rcases List.mem_cons.mp hseg with h | h
        · subst h
          intro hmem
          rcases List.mem_cons.mp hmem with h' | h'
          · exact hx h'.symm
          · exact ih s' (List.mem_cons_self s' ss) h'
        · exact ih seg (List.mem_cons_of_mem s' h)

theorem replSlash_of_not_mem {s : List Char} (h : '/' ∉ s) : replSlash s = s := by
  induction s with
  | nil => rfl
  | cons x xs ih =>
    rw [replSlash, if_neg (fun hx => h (List.mem_cons.mpr (Or.inl hx.symm)))]
    rw [ih (fun hx => h (List.mem_cons_of_mem x hx))]

theorem replSlash_append (a b : List Char) :
    replSlash (a ++ b) = replSlash a ++ replSlash b := by
  induction a with
  | nil => rfl
  | cons x xs ih =>
    rw [List.cons_append, replSlash, replSlash]
    by_cases hx : x = '/'
    · rw [if_pos hx, if_pos hx, ih]
      simp
    · rw [if_neg hx, if_neg hx, ih]
      simp

theorem map_replSlash_eq_self {L : List (List Char)} (h : ∀ seg ∈ L, '/' ∉ seg) :
    L.map replSlash = L := by
  induction L with
  | nil => rfl
  | cons s ss ih =>
    rw [List.map_cons, replSlash_of_not_mem (h s (List.mem_cons_self s ss)),
      ih (fun seg hseg => h seg (List.mem_cons_of_mem s hseg))]

theorem splitPathToList_eq_none {p : List Char} (h : splitEsc p = none) :
    splitPathToList p = splitChar '/' p := by
  rw [splitPathToList.eq_def]
  split
  · rfl
  · rename_i pre rest heq
    rw [h] at heq
    cases heq

theorem splitPathToList_eq_some {p pre rest : List Char} (h : splitEsc p = some (pre, rest)) :
    splitPathToList p =
      (splitChar '/' pre).dropLast ++
        ((splitChar '/' pre).getLastD [] ++ '/' :: (splitPathToList rest).headD []) ::
          (splitPathToList rest).tail := by
  rw [splitPathToList.eq_def]
  split
  · rename_i heq
    rw [h] at heq
    cases heq
  · rename_i pre' rest' heq
    rw [h] at heq
    simp only [Option.some.injEq, Prod.mk.injEq] at heq
    obtain ⟨h1, h2⟩ := heq
    subst h1
    subst h2
    rfl

theorem splitPathToList_ne_nil (p : List Char) : splitPathToList p ≠ [] := by
  cases h : splitEsc p with
  | none =>
    rw [splitPathToList_eq_none h]
    exact splitChar_ne_nil '/' p
  | some pr =>
    obtain ⟨pre, rest⟩ := pr
    rw [splitPathToList_eq_some h]
    simp

theorem getLastD_concat (S : List (List Char)) (b d : List Char) :
    List.getLastD (S ++ [b]) d = b := by
  induction S generalizing d with
  | nil => rfl
  | cons s ss ih => rw [List.cons_append, List.getLastD_cons, ih]

theorem joinSep_glue (S : List (List Char)) (l m : List Char) (M : List (List Char))
    (hS : ∀ seg ∈ S, '/' ∉ seg) (hl : '/' ∉ l) :
    joinSep '/' ((S ++ (l ++ '/' :: m) :: M).map replSlash)
      = joinSep '/' (S ++ [l]) ++ '\\' :: '/' :: joinSep '/' ((m :: M).map replSlash) := by
  induction S with
  | nil =>
    have hrep : replSlash (l ++ '/' :: m) = l ++ '\\' :: '/' :: replSlash m := by
      rw [replSlash_append, replSlash_of_not_mem hl]
      simp [replSlash]
    cases M with
    | nil =>
      simp only [List.nil_append, List.map_cons, List.map_nil, joinSep, hrep]
    | cons m2 M2 =>
      simp only [List.nil_append, List.map_cons, joinSep]
      rw [hrep]
      simp [List.append_assoc]
  | cons s S' ih =>
    have hs : '/' ∉ s := hS s (List.mem_cons_self s S')
    have hS' : ∀ seg ∈ S', '/' ∉ seg := fun seg hseg => hS seg (List.mem_cons_of_mem s hseg)
    rw [List.cons_append, List.map_cons, replSlash_of_not_mem hs]
    rw [joinSep_cons_of_ne _ _ (by simp), List.cons_append]
    rw [joinSep_cons_of_ne _ _ (by simp), ih hS']
    simp [List.append_assoc]

/-- The general round-trip: splitting any path with `splitPathToList` and
rejoining the segments with `/` after escaping each internal separator
reproduces the path. -/
theorem splitPathToList_roundtrip (p : List Char) :
    joinSep '/' ((splitPathToList p).map replSlash) = p := by
  cases h : splitEsc p with
  | none =>
    rw [splitPathToList_eq_none h,
      map_replSlash_eq_self (not_mem_splitChar '/' p), joinSep_splitChar]
  | some pr =>
    obtain ⟨pre, rest⟩ := pr
    have hlt : rest.length < p.length := splitEsc_rest_length h
    have ih := splitPathToList_roundtrip rest
    rw [splitPathToList_eq_some h]
    rcases List.eq_nil_or_concat (splitChar '/' pre) with hnil | ⟨S, b, hSb⟩
    · exact absurd hnil (splitChar_ne_nil '/' pre)
    · rw [List.concat_eq_append] at hSb
      have hS : ∀ seg ∈ S, '/' ∉ seg := fun seg hseg =>
        not_mem_splitChar '/' pre seg (hSb ▸ List.mem_append_left [b] hseg)
      have hb : '/' ∉ b := not_mem_splitChar '/' pre b
        (hSb ▸ List.mem_append_right S (List.mem_cons_self b []))
      cases hm : splitPathToList rest with
      | nil => exact absurd hm (splitPathToList_ne_nil rest)
      | cons m M =>
        rw [hSb, List.dropLast_concat, getLastD_concat]
        have hhead : (m :: M).headD ([] : List Char) = m := rfl
        have htail : (m :: M).tail = M := rfl
        rw [hhead, htail, joinSep_glue S b m M hS hb, ← hSb, joinSep_splitChar]
        rw [← hm, ih]
        exact (splitEsc_some h).symm
termination_by p.length
decreasing_by exact hlt

/-! ## Supporting lemmas for the claims -/

theorem resolveLoop_fst_of_no_match {answer : String} :
    ∀ {es : List ElementDescription} (r v : String),
      (∀ e ∈ es, eqFold e.Summary answer = false) →
      (resolveLoop answer es (r, v)).1 = r := by
  intro es
  induction es with
  | nil => intro r v _; rfl
  | cons e es ih =>
    intro r v h
    rw [resolveLoop]
    have he : eqFold e.Summary answer = false := h e (List.mem_cons_self e es)
    simp only [he, Bool.false_eq_true, if_false]
    exact ih r _ (fun e' he' => h e' (List.mem_cons_of_mem e he'))

theorem resolveLoop_fst_of_match {answer : String} :
    ∀ {es : List ElementDescription} (r v : String),
      (∃ e ∈ es, eqFold e.Summary answer = true) →
      ∃ e ∈ es, eqFold e.Summary answer = true ∧ (resolveLoop answer es (r, v)).1 = e.Key := by
  intro es
  induction es with
  | nil => intro r v h; simp at h
  | cons e es ih =>
    intro r v h
    by_cases htail : ∃ e' ∈ es, eqFold e'.Summary answer = true
    · obtain ⟨e', he', hfold, hres⟩ := ih (if eqFold e.Summary answer then e.Key else r)
        (v ++ "(" ++ e.Key ++ ") " ++ e.Summary ++ " ") htail
      refine ⟨e', List.mem_cons_of_mem e he', hfold, ?_⟩
      rw [resolveLoop]
      exact hres
    · have hall : ∀ e' ∈ es, eqFold e'.Summary answer = false := by
        intro e' he'
        rcases Bool.eq_false_or_eq_true (eqFold e'.Summary answer) with ht | hf
        · exact absurd ⟨e', he', ht⟩ htail
        · exact hf
      have hhead : eqFold e.Summary answer = true := by
        obtain ⟨e', he', ht⟩ := h
        rcases List.mem_cons.mp he' with heq | hmem
        · exact heq ▸ ht
        · rw [hall e' hmem] at ht
          cases ht
      refine ⟨e, List.mem_cons_self e es, hhead, ?_⟩
      rw [resolveLoop]
      simp only [hhead, if_true]
      exact resolveLoop_fst_of_no_match e.Key _ hall

theorem answerQuestionSubmitted_eq_filter_map (reMatch : String → String → Bool) (q : Question) :
    ∀ rules : List QRule,
      answerQuestionSubmitted reMatch q rules =
        (rules.filter (fun r => reMatch r.regex q.text)).map
          (fun r => (resolveAnswerAndOptions q.choices r.answer).1) := by
  intro rules
  induction rules with
  | nil => rfl
  | cons r rs ih =>
    rw [answerQuestionSubmitted]
    by_cases hr : reMatch r.regex q.text
    · simp [List.filter_cons, hr, ih]
    · simp [List.filter_cons, hr, ih]

theorem isTaskInProgress_eq_false_iff (ts : List (Option TaskInfoState)) :
    isTaskInProgress ts = false ↔
      ∃ t ∈ ts, t = some TaskInfoState.queued ∨ t = some TaskInfoState.running := by
  induction ts with
  | nil => simp [isTaskInProgress]
  | cons t ts ih =>
    cases t with
    | none => simp [isTaskInProgress, ih]
    | some s => cases s <;> simp [isTaskInProgress, ih]

/-! ## Claim theorems -/

/-- C1 (code bug): evaluating `resizeAndDeleteVols` on a template with one
virtual disk whose backing file is listed with an equal requested size
(1 GB requested, current capacity 1048576 KB): the call succeeds but the
returned device-change list contains an entry — the nil (`none`) config
spec that the unconditional `append` at util.go:842 pushes — whereas the
claim (and spec 4.3b) say an equal size produces no device-change entry. -/
theorem resizeAndDeleteVols_equal_size_nil_entry :
    resizeAndDeleteVols [VDevice.disk ("disk1.vmdk") 1048576] [⟨1, ("disk1.vmdk")⟩]
      = Except.ok [none] := by
  rfl

/-- C2 counterexample: a response table with two rules both matching the
pending question, delivered by Go's map `range` in the reversed order (a
legal iteration order, since map iteration order is unspecified): all
rules are applied, but in iteration order, not in the table's order, so
the submitted answer sequence differs from the table-order sequence. -/
theorem answerQuestion_table_order_counterexample :
    List.Perm [QRule.mk ("b") ("2"), QRule.mk ("a") ("1")]
        [QRule.mk ("a") ("1"), QRule.mk ("b") ("2")] ∧
      answerQuestionSubmitted (fun _ _ => true) ⟨("q"), ("id"), []⟩
          [QRule.mk ("b") ("2"), QRule.mk ("a") ("1")] ≠
        answerQuestionSubmitted (fun _ _ => true) ⟨("q"), ("id"), []⟩
          [QRule.mk ("a") ("1"), QRule.mk ("b") ("2")] := by
  constructor
  · exact List.Perm.swap (QRule.mk ("a") ("1")) (QRule.mk ("b") ("2")) []
  · decide

/-- C2 (amended): `answerQuestion` applies every rule whose regex matches
the pending question's text, each exactly once, resolved through
`resolveAnswerAndOptions` — but in the order Go's map iteration happens
to deliver the `QuestionResponses` entries, which is an arbitrary
permutation of the table, not the table's order; consequently the
submitted answers are exactly the matching entries of the iteration
order, and form a permutation of the answers computed from the table in
any order. -/
theorem answerQuestion_matching_rules_spec (reMatch : String → String → Bool) (q : Question)
    (table iter : List QRule) (hperm : List.Perm iter table) :
    answerQuestionSubmitted reMatch q iter =
      (iter.filter (fun r => reMatch r.regex q.text)).map
        (fun r => (resolveAnswerAndOptions q.choices r.answer).1) ∧
    List.Perm (answerQuestionSubmitted reMatch q iter)
      (answerQuestionSubmitted reMatch q table) := by
  refine ⟨answerQuestionSubmitted_eq_filter_map reMatch q iter, ?_⟩
  rw [answerQuestionSubmitted_eq_filter_map reMatch q iter,
    answerQuestionSubmitted_eq_filter_map reMatch q table]
  exact (hperm.filter _).map _

/-- Witness for C2's amended theorem at a concrete two-rule table and its
reversed iteration order. -/
theorem answerQuestion_matching_rules_spec_witness :
    List.Perm [QRule.mk ("y") ("B"), QRule.mk ("x") ("A")]
        [QRule.mk ("x") ("A"), QRule.mk ("y") ("B")] ∧
      (answerQuestionSubmitted (fun _ _ => true) ⟨("q"), ("id"), []⟩
          [QRule.mk ("y") ("B"), QRule.mk ("x") ("A")] =
        (([QRule.mk ("y") ("B"), QRule.mk ("x") ("A")].filter
            (fun r => (fun _ _ => true) r.regex (Question.mk ("q") ("id") []).text)).map
          (fun r => (resolveAnswerAndOptions (Question.mk ("q") ("id") []).choices r.answer).1)) ∧
      List.Perm
        (answerQuestionSubmitted (fun _ _ => true) ⟨("q"), ("id"), []⟩
          [QRule.mk ("y") ("B"), QRule.mk ("x") ("A")])
        (answerQuestionSubmitted (fun _ _ => true) ⟨("q"), ("id"), []⟩
          [QRule.mk ("x") ("A"), QRule.mk ("y") ("B")])) :=
  ⟨by decide,
    answerQuestion_matching_rules_spec (fun _ _ => true) ⟨("q"), ("id"), []⟩
      [QRule.mk ("x") ("A"), QRule.mk ("y") ("B")]
      [QRule.mk ("y") ("B"), QRule.mk ("x") ("A")] (by decide)⟩

/-- C3: `validateHost` returns true only if every requested network name
is among the host's networks and, when a datastore has been pre-selected
(non-empty `vm.datastore`), that datastore is among the host's
datastores; with no datastore chosen the result is exactly the network
check (the datastore check is skipped); consequently a host lacking a
requested network or the pre-chosen datastore is never among the
candidates `filterHosts` returns (from which the random selection is
made). -/
theorem validateHost_filterHosts_spec (reqNetworks : List String) (datastore : String)
    (host : HostInfo) (hosts : List HostInfo) :
    (validateHost reqNetworks datastore host = true →
      (∀ n ∈ reqNetworks, host.networks.contains n = true) ∧
      (datastore ≠ "" → host.datastores.contains datastore = true)) ∧
    (validateHost reqNetworks "" host = reqNetworks.all (fun v => host.networks.contains v)) ∧
    (((∃ n ∈ reqNetworks, host.networks.contains n = false) ∨
        (datastore ≠ "" ∧ host.datastores.contains datastore = false)) →
      host ∉ filterHosts reqNetworks datastore hosts) := by
  have hv : validateHost reqNetworks datastore host = true →
      (∀ n ∈ reqNetworks, host.networks.contains n = true) ∧
      (datastore ≠ "" → host.datastores.contains datastore = true) := by
    intro h
    simp only [validateHost] at h
    by_cases hds : datastore = ""
    · rw [if_pos hds] at h
      exact ⟨List.all_eq_true.mp h, fun hne => absurd hds hne⟩
    · rw [if_neg hds] at h
      obtain ⟨h1, h2⟩ := Bool.and_eq_true_iff.mp h
      exact ⟨List.all_eq_true.mp h1, fun _ => h2⟩
  refine ⟨hv, ?_, ?_⟩
  · simp [validateHost]
  · intro hbad hmem
    have hvt : validateHost reqNetworks datastore host = true :=
      (List.mem_filter.mp hmem).2
    obtain ⟨hnets, hds⟩ := hv hvt
    rcases hbad with ⟨n, hn, hfalse⟩ | ⟨hne, hfalse⟩
    · rw [hnets n hn] at hfalse
      cases hfalse
    · rw [hds hne] at hfalse
      cases hfalse

/-- Witness for C3 at a host lacking the requested network: it is not
among the candidates. -/
theorem validateHost_filterHosts_spec_witness :
    ((∃ n ∈ [("net1")], (HostInfo.mk [] [("ds1")]).networks.contains n = false) ∨
      (("ds1") ≠ "" ∧ (HostInfo.mk [] [("ds1")]).datastores.contains ("ds1") = false)) ∧
    HostInfo.mk [] [("ds1")] ∉ filterHosts [("net1")] ("ds1") [HostInfo.mk [] [("ds1")]] :=
  ⟨by decide,
    (validateHost_filterHosts_spec [("net1")] ("ds1") (HostInfo.mk [] [("ds1")])
      [HostInfo.mk [] [("ds1")]]).2.2 (by decide)⟩

/-- C4: when some choice's description summary case-insensitively equals
the answer, `resolveAnswerAndOptions` returns the key of such a choice
(the last matching one, hence exists one); when no summary matches, it
returns the literal answer unchanged. -/
theorem resolveAnswerAndOptions_spec (choiceInfo : List ElementDescription) (answer : String) :
    ((∃ c ∈ choiceInfo, eqFold c.Summary answer = true) →
      ∃ c ∈ choiceInfo, eqFold c.Summary answer = true ∧
        (resolveAnswerAndOptions choiceInfo answer).1 = c.Key) ∧
    ((∀ c ∈ choiceInfo, eqFold c.Summary answer = false) →
      (resolveAnswerAndOptions choiceInfo answer).1 = answer) := by
  constructor
  · intro h
    exact resolveLoop_fst_of_match answer "" h
  · intro h
    exact resolveLoop_fst_of_no_match answer "" h

/-- Witness for C4: the "Retry" scenario — with choices summarized
"Cancel" (key 0) and "Retry" (key 1), the answer "Retry" resolves to the
key "1" of the matching choice, not the literal string. -/
theorem resolveAnswerAndOptions_spec_witness :
    (∃ c ∈ [ElementDescription.mk ("0") ("Cancel"), ElementDescription.mk ("1") ("Retry")],
        eqFold c.Summary ("Retry") = true) ∧
    ∃ c ∈ [ElementDescription.mk ("0") ("Cancel"), ElementDescription.mk ("1") ("Retry")],
      eqFold c.Summary ("Retry") = true ∧
        (resolveAnswerAndOptions
          [ElementDescription.mk ("0") ("Cancel"), ElementDescription.mk ("1") ("Retry")]
          ("Retry")).1 = c.Key :=
  ⟨by decide, (resolveAnswerAndOptions_spec _ _).1 (by decide)⟩

/-- C5: for every path (as a character list) containing an escaped
separator, splitting with `splitPathToList` and rejoining the segments
with `/` after replacing each separator internal to a segment back with
its escaped form reproduces the original path exactly. -/
theorem splitPathToList_roundtrip_escaped (p : List Char) (hesc : splitEsc p ≠ none) :
    joinSep '/' ((splitPathToList p).map replSlash) = p :=
  splitPathToList_roundtrip p

/-- Witness for C5 at the concrete path `vms\/test/a`. -/
theorem splitPathToList_roundtrip_escaped_witness :
    splitEsc (String.toList ("vms\\/test/a")) ≠ none ∧
    joinSep '/' ((splitPathToList (String.toList ("vms\\/test/a"))).map replSlash)
      = String.toList ("vms\\/test/a") :=
  ⟨by decide, splitPathToList_roundtrip_escaped _ (by decide)⟩

/-- C6: the wait predicate of `waitForGuestStatus` accepts only a
reported heartbeat status whose corresponding bit (green, yellow, gray,
red) is set in the acceptance mask — it never accepts a status outside
the mask — and the property wait accepts at the very first delivered
batch whenever that batch already satisfies the mask, without further
waiting. -/
theorem guestStatusPred_mask_spec (status : Nat) (pc : List PropertyChange)
    (updates : List (List PropertyChange)) :
    (guestStatusPred status pc = true →
      ∃ c ∈ pc, c.Name = GUEST_HEART_BEAT_STATUS ∧
        ∃ ps, c.Val = some ps ∧ status &&& heartbeatBit ps ≠ 0) ∧
    (guestStatusPred status (updates.headD []) = true →
      propertyWaitModel (guestStatusPred status) updates = some 0) := by
  constructor
  · induction pc with
    | nil =>
      intro h
      simp [guestStatusPred] at h
    | cons c rest ih =>
      intro h
      obtain ⟨nm, v⟩ := c
      cases v with
      | none =>
        simp only [guestStatusPred] at h
        have hrest : guestStatusPred status rest = true := by
          by_cases hname : nm ≠ GUEST_HEART_BEAT_STATUS
          · rwa [if_pos hname] at h
          · rwa [if_neg hname] at h
        obtain ⟨c', hc', hx⟩ := ih hrest
        exact ⟨c', List.mem_cons_of_mem _ hc', hx⟩
      | some ps =>
        simp only [guestStatusPred] at h
        by_cases hname : nm ≠ GUEST_HEART_BEAT_STATUS
        · rw [if_pos hname] at h
          obtain ⟨c', hc', hx⟩ := ih h
          exact ⟨c', List.mem_cons_of_mem _ hc', hx⟩
        · rw [if_neg hname] at h
          rw [not_not] at hname
          split_ifs at h with h1 h2 h3 h4
          · exact ⟨⟨nm, some ps⟩, List.mem_cons_self _ _, hname, ps, rfl,
              by rw [h1.2]; exact h1.1⟩
          · exact ⟨⟨nm, some ps⟩, List.mem_cons_self _ _, hname, ps, rfl,
              by rw [h2.2]; exact h2.1⟩
          · exact ⟨⟨nm, some ps⟩, List.mem_cons_self _ _, hname, ps, rfl,
              by rw [h3.2]; exact h3.1⟩
          · exact ⟨⟨nm, some ps⟩, List.mem_cons_self _ _, hname, ps, rfl,
              by rw [h4.2]; exact h4.1⟩
          · obtain ⟨c', hc', hx⟩ := ih h
            exact ⟨c', List.mem_cons_of_mem _ hc', hx⟩
  · intro h
    cases updates with
    | nil => simp [guestStatusPred] at h
    | cons u us =>
      have hu : (u :: us).headD ([] : List PropertyChange) = u := rfl
      rw [hu] at h
      simp [propertyWaitModel, h]

/-- Witness for C6 at mask `GREEN_HEART_BEAT` and a first batch reporting
a green heartbeat. -/
theorem guestStatusPred_mask_spec_witness :
    (guestStatusPred GREEN_HEART_BEAT
        [PropertyChange.mk ("guestHeartbeatStatus") (some ManagedEntityStatus.green)] = true) ∧
    (∃ c ∈ [PropertyChange.mk ("guestHeartbeatStatus") (some ManagedEntityStatus.green)],
      c.Name = GUEST_HEART_BEAT_STATUS ∧
        ∃ ps, c.Val = some ps ∧ GREEN_HEART_BEAT &&& heartbeatBit ps ≠ 0) ∧
    propertyWaitModel (guestStatusPred GREEN_HEART_BEAT)
        [[PropertyChange.mk ("guestHeartbeatStatus") (some ManagedEntityStatus.green)]]
      = some 0 :=
  ⟨by decide,
    (guestStatusPred_mask_spec GREEN_HEART_BEAT
      [PropertyChange.mk ("guestHeartbeatStatus") (some ManagedEntityStatus.green)]
      [[PropertyChange.mk ("guestHeartbeatStatus") (some ManagedEntityStatus.green)]]).1
      (by decide),
    (guestStatusPred_mask_spec GREEN_HEART_BEAT
      [PropertyChange.mk ("guestHeartbeatStatus") (some ManagedEntityStatus.green)]
      [[PropertyChange.mk ("guestHeartbeatStatus") (some ManagedEntityStatus.green)]]).2
      (by decide)⟩

/-- C7: `isTaskInProgress` returns true for an empty recent-task list;
it returns true whenever no retrievable task is queued or running
(retrieval failures are skipped); and it returns false exactly when some
retrievable task is queued or running — i.e. the name's polarity is
inverted: true means "no task in progress". -/
theorem isTaskInProgress_spec (ts : List (Option TaskInfoState)) :
    isTaskInProgress [] = true ∧
    ((∀ t ∈ ts, t ≠ some TaskInfoState.queued ∧ t ≠ some TaskInfoState.running) →
      isTaskInProgress ts = true) ∧
    (isTaskInProgress ts = false ↔
      ∃ t ∈ ts, t = some TaskInfoState.queued ∨ t = some TaskInfoState.running) := by
  refine ⟨rfl, ?_, isTaskInProgress_eq_false_iff ts⟩
  intro h
  rcases Bool.eq_false_or_eq_true (isTaskInProgress ts) with ht | hf
  · exact ht
  · obtain ⟨t, hmem, hqr⟩ := (isTaskInProgress_eq_false_iff ts).mp hf
    obtain ⟨hq, hr⟩ := h t hmem
    rcases hqr with h' | h'
    · exact absurd h' hq
    · exact absurd h' hr

/-- Witness for C7 at a list with one successful task and one retrieval
failure: no task is queued or running, so the function returns true. -/
theorem isTaskInProgress_spec_witness :
    (∀ t ∈ [some TaskInfoState.success, (none : Option TaskInfoState)],
      t ≠ some TaskInfoState.queued ∧ t ≠ some TaskInfoState.running) ∧
    isTaskInProgress [some TaskInfoState.success, none] = true :=
  ⟨by decide, (isTaskInProgress_spec [some TaskInfoState.success, none]).2.1 (by decide)⟩

/-- C8: when the reported guest state is "shuttingdown" or "resetting",
`start` returns the transient `ErrorVMPowerStateChanging` without
submitting a power-on task; for every other state it submits the
power-on task and (when submission succeeds) waits for its result. -/
theorem start_spec (env : StartEnv) :
    ((env.guestState = "shuttingdown" ∨ env.guestState = "resetting") →
      (start env).2 = some StartErr.powerStateChanging ∧
        StartStep.submitPowerOn ∉ (start env).1) ∧
    (¬(env.guestState = "shuttingdown" ∨ env.guestState = "resetting") →
      StartStep.submitPowerOn ∈ (start env).1 ∧
        (env.powerOnErr = none → StartStep.waitPowerOnResult ∈ (start env).1)) := by
  obtain ⟨gs, po, we, tf, skip, ip⟩ := env
  constructor
  · intro h
    simp only [start]
    rw [if_pos h]
    exact ⟨rfl, by simp⟩
  · intro h
    simp only [start]
    rw [if_neg h]
    rcases po with _ | e1
    · rcases we with _ | e2
      · rcases tf with _ | e3
        · cases skip
          · rcases ip with _ | e4 <;> simp
          · simp
        · simp
      · simp
    · simp

/-- Witness for C8 at a VM reported as "shuttingdown". -/
theorem start_spec_witness :
    ((("shuttingdown") = "shuttingdown" ∨ ("shuttingdown") = "resetting") ∧
      (start (StartEnv.mk ("shuttingdown") none none none true none)).2
          = some StartErr.powerStateChanging ∧
        StartStep.submitPowerOn ∉ (start (StartEnv.mk ("shuttingdown") none none none true none)).1) :=
  ⟨by decide,
    (start_spec (StartEnv.mk ("shuttingdown") none none none true none)).1 (by decide)⟩

/-- C9: the `waitForIP` timeout equals the parsed duration of the
`IPWAIT_TIMEOUT` environment variable when the variable is non-empty and
parses as a duration, and falls back to the one-hour default when the
variable is absent (empty) or fails to parse. -/
theorem waitForIPTimeout_spec (parseDuration : String → Option Int)
    (getenv : String → String) (d : Int) :
    ((getenv ("IPWAIT_TIMEOUT") ≠ "" ∧ parseDuration (getenv ("IPWAIT_TIMEOUT")) = some d) →
      waitForIPTimeout parseDuration getenv = d) ∧
    ((getenv ("IPWAIT_TIMEOUT") = "" ∨ parseDuration (getenv ("IPWAIT_TIMEOUT")) = none) →
      waitForIPTimeout parseDuration getenv = IPWAIT_TIMEOUT) := by
  constructor
  · rintro ⟨hne, hparse⟩
    simp only [waitForIPTimeout]
    rw [if_pos hne, hparse]
  · rintro (hempty | hnone)
    · simp only [waitForIPTimeout]
      rw [if_neg (by simp [hempty])]
    · simp only [waitForIPTimeout]
      by_cases hne : getenv ("IPWAIT_TIMEOUT") ≠ ""
      · rw [if_pos hne, hnone]
      · rw [if_neg hne]

/-- Witness for C9: a valid five-second duration value is used as the
timeout. -/
theorem waitForIPTimeout_spec_witness :
    ((fun _ : String => ("5s")) ("IPWAIT_TIMEOUT") ≠ "" ∧
      (fun s => if s = ("5s") then some (5000000000 : Int) else none)
        ((fun _ : String => ("5s")) ("IPWAIT_TIMEOUT")) = some 5000000000) ∧
    waitForIPTimeout (fun s => if s = ("5s") then some (5000000000 : Int) else none)
      (fun _ : String => ("5s")) = 5000000000 :=
  ⟨⟨by decide, by decide⟩,
    (waitForIPTimeout_spec (fun s => if s = ("5s") then some (5000000000 : Int) else none)
      (fun _ : String => ("5s")) 5000000000).1 ⟨by decide, by decide⟩⟩

/-- C10: `splitPathToList` (a total function in this embedding — its
recursion is on a strictly shorter remainder, which is the termination
argument) returns a list with at least one element for every input, so
the first and last indexing done by `searchTree` (`pathList[iPathList]`
starting at 0 and `pathList[lPathList-1]`) is always in bounds. -/
theorem splitPathToList_nonempty (p : List Char) :
    0 < (splitPathToList p).length ∧
      (splitPathToList p).length - 1 < (splitPathToList p).length := by
  have h := splitPathToList_ne_nil p
  have hlen : 0 < (splitPathToList p).length := List.length_pos.mpr h
  exact ⟨hlen, by omega⟩

end VSphere
